import Mathlib

/-!
Verification development for the finance_api repository: a shallow embedding
of the data model (models.py, schemas.py) and of the data-access layer
(crud.py, main.py) as pure Lean functions over an explicit database state,
together with theorems settling the specification claims.

Modelling conventions:
* the relational store is a record of three lists (users, transactions,
  categories) plus autoincrement counters for the integer primary keys;
* SQLAlchemy `.first()` is `List.filter` followed by `List.head?`;
* mutating an ORM row in place and committing is modelled by replacing the
  matching row positionally in the list;
* the SQL `Float` amount column is modelled as `Rat` (exact arithmetic);
* pydantic request schemas are records with exactly the declared fields, so
  a payload structurally cannot carry an owner field (extra JSON fields are
  dropped by the framework before the code under verification runs).
-/

namespace FinanceApi

/-- Row of the users table (models.User). -/
structure User where
  id : Nat
  email : String
  hashed_password : String
deriving DecidableEq

/-- Row of the transactions table (models.Transaction).  The `type` column
is a plain string with default "expense"; no constraint restricts it. -/
structure Transaction where
  id : Nat
  title : String
  amount : Rat
  type : String
  category_id : Nat
  owner_id : Nat
deriving DecidableEq

/-- Row of the categories table (models.Category). -/
structure Category where
  id : Nat
  name : String
  owner_id : Nat
deriving DecidableEq

/-- Request schema schemas.TransactionCreate: title, amount, type
(default "expense"), category_id.  There is no owner field. -/
structure TransactionCreate where
  title : String
  amount : Rat
  type : String := "expense"
  category_id : Nat
deriving DecidableEq

/-- Request schema schemas.CategoryCreate: just a name; no owner field. -/
structure CategoryCreate where
  name : String
deriving DecidableEq

/-- Request schema schemas.UserCreate. -/
structure UserCreate where
  email : String
  password : String
deriving DecidableEq

/-- The database state: three tables and the autoincrement counters of
their integer primary keys. -/
structure DB where
  users : List User
  transactions : List Transaction
  categories : List Category
  next_user_id : Nat
  next_transaction_id : Nat
  next_category_id : Nat
deriving DecidableEq

/-- crud.get_user_by_email: first users row with the given email. -/
def get_user_by_email (db : DB) (email : String) : Option User :=
  (db.users.filter (fun u => u.email == email)).head?

/-- crud.create_user: insert a fresh user row. -/
def create_user (db : DB) (user : UserCreate) (hashed_password : String) :
    User × DB :=
  let u : User := ⟨db.next_user_id, user.email, hashed_password⟩
  (u, { db with users := db.users ++ [u], next_user_id := db.next_user_id + 1 })

/-- Error outcomes surfaced by the endpoints of main.py. -/
inductive ApiError
  | emailTaken
  | notFound
deriving DecidableEq

/-- main.create_user endpoint: reject when the email is already registered,
otherwise hash the password and insert.  The hash function lives in auth.py
(outside the data-access layer) and is passed as a parameter. -/
def create_user_endpoint (hash : String → String) (db : DB)
    (user : UserCreate) : Except ApiError User × DB :=
  match get_user_by_email db user.email with
  | some _ => (Except.error ApiError.emailTaken, db)
  | none =>
      let r := create_user db user (hash user.password)
      (Except.ok r.1, r.2)

/-- crud.create_transaction: insert a row built from the payload fields
with owner_id stamped from the authenticated user. -/
def create_transaction (db : DB) (transaction : TransactionCreate)
    (user_id : Nat) : Transaction × DB :=
  let t : Transaction :=
    ⟨db.next_transaction_id, transaction.title, transaction.amount,
     transaction.type, transaction.category_id, user_id⟩
  (t, { db with transactions := db.transactions ++ [t],
                next_transaction_id := db.next_transaction_id + 1 })

/-- crud.get_transaction: first transactions row matching id AND owner. -/
def get_transaction (db : DB) (transaction_id user_id : Nat) :
    Option Transaction :=
  (db.transactions.filter
      (fun t => t.id == transaction_id && t.owner_id == user_id)).head?

/-- The setattr loop of crud.update_transaction: overwrite exactly the four
payload fields, keeping id and owner_id. -/
def setFields (transaction : TransactionCreate) (t : Transaction) :
    Transaction :=
  { t with title := transaction.title, amount := transaction.amount,
           type := transaction.type, category_id := transaction.category_id }

/-- Replace, in place, the first row matching id AND owner. -/
def updateFirst (transaction_id user_id : Nat)
    (transaction : TransactionCreate) : List Transaction → List Transaction
  | [] => []
  | t :: ts =>
      if t.id == transaction_id && t.owner_id == user_id then
        setFields transaction t :: ts
      else
        t :: updateFirst transaction_id user_id transaction ts

/-- crud.update_transaction: fetch owner-scoped; when present overwrite the
payload fields and commit; when absent return none and change nothing. -/
def update_transaction (db : DB) (transaction_id : Nat)
    (transaction : TransactionCreate) (user_id : Nat) :
    Option Transaction × DB :=
  match get_transaction db transaction_id user_id with
  | none => (none, db)
  | some t =>
      (some (setFields transaction t),
       { db with transactions :=
           updateFirst transaction_id user_id transaction db.transactions })

/-- Remove the first row matching id AND owner. -/
def removeFirst (transaction_id user_id : Nat) :
    List Transaction → List Transaction
  | [] => []
  | t :: ts =>
      if t.id == transaction_id && t.owner_id == user_id then ts
      else t :: removeFirst transaction_id user_id ts

/-- crud.delete_transaction: fetch owner-scoped; when present delete the row
and return its snapshot; when absent return none and change nothing. -/
def delete_transaction (db : DB) (transaction_id user_id : Nat) :
    Option Transaction × DB :=
  match get_transaction db transaction_id user_id with
  | none => (none, db)
  | some t =>
      (some t,
       { db with transactions :=
           removeFirst transaction_id user_id db.transactions })

/-- crud.create_category: insert a row from the payload with owner_id
stamped from the authenticated user. -/
def create_category (db : DB) (category : CategoryCreate) (user_id : Nat) :
    Category × DB :=
  let c : Category := ⟨db.next_category_id, category.name, user_id⟩
  (c, { db with categories := db.categories ++ [c],
                next_category_id := db.next_category_id + 1 })

/-- The joined, filtered, projected rows of crud.get_spending_by_category:
inner join of categories with transactions on category_id, keeping rows
whose transaction is owned by user_id and has type "expense", projected to
(category name, amount).  The category owner is NOT filtered. -/
def joinedRows (db : DB) (user_id : Nat) : List (String × Rat) :=
  db.categories.flatMap (fun c =>
    db.transactions.filterMap (fun t =>
      if c.id == t.category_id && t.owner_id == user_id &&
          t.type == "expense" then
        some (c.name, t.amount)
      else none))

/-- One step of SQL GROUP BY accumulation: add a row's amount to its name's
group, or open a new group. -/
def addRow : List (String × Rat) → String × Rat → List (String × Rat)
  | [], r => [r]
  | g :: gs, r =>
      if g.1 == r.1 then (g.1, g.2 + r.2) :: gs else g :: addRow gs r

/-- SQL GROUP BY name with SUM(amount): fold the rows into per-name groups. -/
def groupRows (rows : List (String × Rat)) : List (String × Rat) :=
  rows.foldl addRow []

/-- crud.get_spending_by_category: group the joined rows by category name
and sum the amounts per group. -/
def get_spending_by_category (db : DB) (user_id : Nat) :
    List (String × Rat) :=
  groupRows (joinedRows db user_id)

/-- Sum of the amounts of the rows carrying a given name. -/
def sumFor (rows : List (String × Rat)) (name : String) : Rat :=
  ((rows.filter (fun r => r.1 == name)).map Prod.snd).sum

/-- The total reported for a name by the spending report (0 when the name
is absent). -/
def reportTotal (db : DB) (user_id : Nat) (name : String) : Rat :=
  sumFor (get_spending_by_category db user_id) name

/-- Reference aggregation, following the specification text: inner-join
Transaction to Category on category_id, keep rows owned by owner_id with
kind = expense, project to (category name, amount). -/
def refJoin (db : DB) (owner_id : Nat) : List (String × Rat) :=
  (((db.categories.flatMap (fun c => db.transactions.map (fun t => (c, t)))).filter
      (fun p => p.1.id == p.2.category_id && p.2.owner_id == owner_id &&
        p.2.type == "expense")).map
    (fun p => (p.1.name, p.2.amount)))

/-- Reference per-group total: sum of amount over the joined rows of the
group of a name. -/
def refTotal (db : DB) (owner_id : Nat) (name : String) : Rat :=
  (((refJoin db owner_id).filter (fun r => r.1 == name)).map Prod.snd).sum

/-- A small concrete database used by the witness theorems: two users, a
category of each, and one expense plus one income transaction of user 1. -/
def dbW : DB :=
  { users := [⟨1, "a@example.com", "h1"⟩, ⟨2, "b@example.com", "h2"⟩],
    transactions :=
      [⟨1, "coffee", 5, "expense", 1, 1⟩, ⟨2, "salary", 7, "income", 1, 1⟩],
    categories := [⟨1, "Food", 1⟩, ⟨2, "Rent", 2⟩],
    next_user_id := 3, next_transaction_id := 3, next_category_id := 3 }

/-- User 1's expense transaction of dbW. -/
def tW : Transaction := ⟨1, "coffee", 5, "expense", 1, 1⟩

/-- A sample update/create payload. -/
def tcW : TransactionCreate := ⟨"tea", 3, "expense", 1⟩

/-- Database exhibiting two same-named categories, with user 1's only
expense referencing the second one. -/
def dbC5 : DB :=
  { users := [],
    transactions := [⟨1, "lunch", 5, "expense", 2, 1⟩],
    categories := [⟨1, "Food", 1⟩, ⟨2, "Food", 1⟩],
    next_user_id := 1, next_transaction_id := 2, next_category_id := 3 }

/-- When the ids in a transaction list are distinct, the first row matching
(id of t, owner of t) is t itself. -/
theorem head?_filter_owned (l : List Transaction) (t : Transaction) (uid : Nat)
    (hnd : (l.map Transaction.id).Nodup) (ht : t ∈ l)
    (hown : t.owner_id = uid) :
    (l.filter (fun x => x.id == t.id && x.owner_id == uid)).head? = some t := by
  induction l with
  | nil => cases ht
  | cons a as ih =>
    have hnd' : ((a :: as).map Transaction.id).Nodup := hnd
    rw [List.map_cons, List.nodup_cons] at hnd
    rw [List.filter_cons]
    by_cases hp : (a.id == t.id && a.owner_id == uid) = true
    · rw [if_pos hp]
      have hid : a.id = t.id := by
        have h1 := ((Bool.and_eq_true _ _).mp hp).1
        exact beq_iff_eq.mp h1
    -- the first match is t itself because ids are distinct
      have hat : a = t :=
        List.inj_on_of_nodup_map hnd' (List.mem_cons_self a as) ht hid
      simp [hat]
    · rw [if_neg hp]
      have hta : t ≠ a := by
        intro h
        apply hp
        rw [← h]
        simp [hown]
      have ht' : t ∈ as := by
        rcases List.mem_cons.mp ht with h | h
        · exact absurd h hta
        · exact h
      exact ih hnd.2 ht'

/-- When no row matches (id, owner), the owner-scoped lookup is empty. -/
theorem head?_filter_none (l : List Transaction) (tid uid : Nat)
    (h : ∀ x ∈ l, ¬(x.id = tid ∧ x.owner_id = uid)) :
    (l.filter (fun x => x.id == tid && x.owner_id == uid)).head? = none := by
  have he : l.filter (fun x => x.id == tid && x.owner_id == uid) = [] := by
    rw [List.filter_eq_nil_iff]
    intro x hx
    simp only [Bool.and_eq_true, beq_iff_eq, not_and]
    exact fun h1 h2 => h x hx ⟨h1, h2⟩
  rw [he]
  rfl

theorem get_transaction_eq_some (db : DB) (t : Transaction) (uid : Nat)
    (hnd : (db.transactions.map Transaction.id).Nodup)
    (ht : t ∈ db.transactions) (hown : t.owner_id = uid) :
    get_transaction db t.id uid = some t :=
  head?_filter_owned db.transactions t uid hnd ht hown

theorem get_transaction_eq_none (db : DB) (tid uid : Nat)
    (h : ∀ x ∈ db.transactions, ¬(x.id = tid ∧ x.owner_id = uid)) :
    get_transaction db tid uid = none :=
  head?_filter_none db.transactions tid uid h

/-- With distinct ids, a row owned by a different user is invisible to
every owner-scoped lookup by another identity. -/
theorem no_match_of_other_owner (db : DB) (t : Transaction) (b : Nat)
    (hnd : (db.transactions.map Transaction.id).Nodup)
    (ht : t ∈ db.transactions) (hb : t.owner_id ≠ b) :
    ∀ x ∈ db.transactions, ¬(x.id = t.id ∧ x.owner_id = b) := by
  intro x hx hc
  have hxt : x = t := List.inj_on_of_nodup_map hnd hx ht hc.1
  exact hb (hxt ▸ hc.2)

/-- Positional decomposition of a transaction list at its unique owned row:
updateFirst rewrites that row in place and removeFirst deletes it, leaving
every other row untouched. -/
theorem split_first_match (l : List Transaction) (t : Transaction) (uid : Nat)
    (tc : TransactionCreate)
    (hnd : (l.map Transaction.id).Nodup) (ht : t ∈ l)
    (hown : t.owner_id = uid) :
    ∃ l1 l2, l = l1 ++ t :: l2 ∧
      updateFirst t.id uid tc l = l1 ++ setFields tc t :: l2 ∧
      removeFirst t.id uid l = l1 ++ l2 := by
  induction l with
  | nil => cases ht
  | cons a as ih =>
    have hnd' : ((a :: as).map Transaction.id).Nodup := hnd
    rw [List.map_cons, List.nodup_cons] at hnd
    by_cases hp : (a.id == t.id && a.owner_id == uid) = true
    · have hid : a.id = t.id := by
        have h1 := ((Bool.and_eq_true _ _).mp hp).1
        exact beq_iff_eq.mp h1
      have hat : a = t :=
        List.inj_on_of_nodup_map hnd' (List.mem_cons_self a as) ht hid
      refine ⟨[], as, by simp [hat], ?_, ?_⟩
      · rw [updateFirst, if_pos hp, hat]
        rfl
      · rw [removeFirst, if_pos hp]
        rfl
    · have hta : t ≠ a := by
        intro h
        apply hp
        rw [← h]
        simp [hown]
      have ht' : t ∈ as := by
        rcases List.mem_cons.mp ht with h | h
        · exact absurd h hta
        · exact h
      obtain ⟨l1, l2, he, hu, hr⟩ := ih hnd.2 ht'
      refine ⟨a :: l1, l2, by simp [he], ?_, ?_⟩
      · rw [updateFirst, if_neg hp, hu]
        rfl
      · rw [removeFirst, if_neg hp, hr]
        rfl

/-- Names of the groups (or of the raw rows). -/
def keysOf (l : List (String × Rat)) : List String := l.map Prod.fst

theorem keysOf_nil : keysOf ([] : List (String × Rat)) = [] := rfl

theorem keysOf_cons (g : String × Rat) (gs : List (String × Rat)) :
    keysOf (g :: gs) = g.1 :: keysOf gs := rfl

theorem sumFor_nil (name : String) : sumFor [] name = 0 := rfl

theorem sumFor_cons (r : String × Rat) (rows : List (String × Rat))
    (name : String) :
    sumFor (r :: rows) name =
      (if r.1 = name then r.2 else 0) + sumFor rows name := by
  by_cases h : r.1 = name
  · simp [sumFor, List.filter_cons, h]
  · simp [sumFor, List.filter_cons, h]

theorem sumFor_append (l1 l2 : List (String × Rat)) (name : String) :
    sumFor (l1 ++ l2) name = sumFor l1 name + sumFor l2 name := by
  simp [sumFor, List.filter_append]

theorem sumFor_addRow (acc : List (String × Rat)) (r : String × Rat)
    (name : String) :
    sumFor (addRow acc r) name =
      sumFor acc name + (if r.1 = name then r.2 else 0) := by
  induction acc with
  | nil =>
      rw [addRow, sumFor_cons, sumFor_nil]
      ring
  | cons g gs ih =>
    by_cases h : (g.1 == r.1) = true
    · have hg : g.1 = r.1 := beq_iff_eq.mp h
      rw [addRow, if_pos h, sumFor_cons, sumFor_cons]
      by_cases hn : g.1 = name
      · rw [if_pos hn, if_pos hn, if_pos (hg ▸ hn)]
        ring
      · rw [if_neg hn, if_neg hn, if_neg (hg ▸ hn)]
        ring
    · rw [addRow, if_neg h, sumFor_cons, sumFor_cons, ih]
      ring

theorem sumFor_foldl (rows : List (String × Rat)) (acc : List (String × Rat))
    (name : String) :
    sumFor (rows.foldl addRow acc) name =
      sumFor acc name + sumFor rows name := by
  induction rows generalizing acc with
  | nil => simp [sumFor_nil]
  | cons r rs ih =>
    rw [List.foldl_cons, ih, sumFor_addRow, sumFor_cons]
    ring

theorem sumFor_groupRows (rows : List (String × Rat)) (name : String) :
    sumFor (groupRows rows) name = sumFor rows name := by
  rw [groupRows, sumFor_foldl, sumFor_nil, zero_add]

theorem keysOf_addRow (acc : List (String × Rat)) (r : String × Rat) :
    keysOf (addRow acc r) =
      if r.1 ∈ keysOf acc then keysOf acc else keysOf acc ++ [r.1] := by
  induction acc with
  | nil => simp [addRow, keysOf_nil, keysOf_cons]
  | cons g gs ih =>
    by_cases h : (g.1 == r.1) = true
    · have hg : g.1 = r.1 := beq_iff_eq.mp h
      have hmem : r.1 ∈ keysOf (g :: gs) := by
        rw [keysOf_cons, hg]
        exact List.mem_cons_self _ _
      rw [addRow, if_pos h, if_pos hmem, keysOf_cons, keysOf_cons]
    · have hg : g.1 ≠ r.1 := by simpa using h
      rw [addRow, if_neg h]
      by_cases hm : r.1 ∈ keysOf gs
      · have hmem : r.1 ∈ keysOf (g :: gs) := by
          rw [keysOf_cons]
          exact List.mem_cons_of_mem _ hm
        rw [if_pos hmem, keysOf_cons, keysOf_cons, ih, if_pos hm]
      · have hmem : r.1 ∉ keysOf (g :: gs) := by
          rw [keysOf_cons]
          intro hx
          rcases List.mem_cons.mp hx with hx | hx
          · exact hg hx.symm
          · exact hm hx
        rw [if_neg hmem, keysOf_cons, keysOf_cons, ih, if_neg hm,
            List.cons_append]

theorem keysOf_nodup_addRow (acc : List (String × Rat)) (r : String × Rat)
    (h : (keysOf acc).Nodup) : (keysOf (addRow acc r)).Nodup := by
  rw [keysOf_addRow]
  by_cases hm : r.1 ∈ keysOf acc
  · rw [if_pos hm]
    exact h
  · rw [if_neg hm]
    refine List.Nodup.append h (List.nodup_singleton _) ?_
    intro x hx hx1
    rw [List.mem_singleton] at hx1
    exact hm (hx1 ▸ hx)

theorem keysOf_nodup_foldl (rows : List (String × Rat))
    (acc : List (String × Rat)) (h : (keysOf acc).Nodup) :
    (keysOf (rows.foldl addRow acc)).Nodup := by
  induction rows generalizing acc with
  | nil => exact h
  | cons r rs ih => exact ih _ (keysOf_nodup_addRow _ _ h)

theorem keysOf_nodup_groupRows (rows : List (String × Rat)) :
    (keysOf (groupRows rows)).Nodup :=
  keysOf_nodup_foldl rows [] (by rw [keysOf_nil]; exact List.nodup_nil)

theorem mem_keysOf_addRow (acc : List (String × Rat)) (r : String × Rat)
    (name : String) :
    name ∈ keysOf (addRow acc r) ↔ name ∈ keysOf acc ∨ name = r.1 := by
  rw [keysOf_addRow]
  by_cases hm : r.1 ∈ keysOf acc
  · rw [if_pos hm]
    constructor
    · exact Or.inl
    · rintro (h | h)
      · exact h
      · exact h ▸ hm
  · rw [if_neg hm]
    simp [List.mem_append]

theorem mem_keysOf_foldl (rows : List (String × Rat))
    (acc : List (String × Rat)) (name : String) :
    name ∈ keysOf (rows.foldl addRow acc) ↔
      name ∈ keysOf acc ∨ name ∈ keysOf rows := by
  induction rows generalizing acc with
  | nil => simp [keysOf_nil]
  | cons r rs ih =>
    rw [List.foldl_cons, ih, mem_keysOf_addRow, keysOf_cons]
    simp only [List.mem_cons]
    tauto

theorem mem_keysOf_groupRows (rows : List (String × Rat)) (name : String) :
    name ∈ keysOf (groupRows rows) ↔ name ∈ keysOf rows := by
  rw [groupRows, mem_keysOf_foldl, keysOf_nil]
  simp

theorem sumFor_eq_zero_of_not_mem (l : List (String × Rat)) (name : String)
    (h : name ∉ keysOf l) : sumFor l name = 0 := by
  induction l with
  | nil => rfl
  | cons g gs ih =>
    rw [keysOf_cons] at h
    have h1 : ¬ g.1 = name := by
      intro hh
      apply h
      rw [← hh]
      exact List.mem_cons_self _ _
    have h2 : name ∉ keysOf gs := fun hh => h (List.mem_cons_of_mem _ hh)
    rw [sumFor_cons, if_neg h1, ih h2]
    ring

/-- In a list with distinct keys, the entry of a key carries exactly the
sum of that key's rows. -/
theorem sumFor_eq_of_mem (l : List (String × Rat)) (n : String) (q : Rat)
    (hnd : (keysOf l).Nodup) (hm : (n, q) ∈ l) : sumFor l n = q := by
  induction l with
  | nil => cases hm
  | cons g gs ih =>
    rw [keysOf_cons, List.nodup_cons] at hnd
    rcases List.mem_cons.mp hm with h | h
    · rw [sumFor_cons, ← h]
      have hz : sumFor gs n = 0 := by
        apply sumFor_eq_zero_of_not_mem
        have := hnd.1
        rw [← h] at this
        exact this
      rw [hz, if_pos rfl]
      ring
    · have hne : g.1 ≠ n := by
        intro hh
        exact hnd.1 (hh ▸ List.mem_map_of_mem Prod.fst h)
      rw [sumFor_cons, if_neg hne, ih hnd.2 h]
      ring

theorem sumFor_spending (db : DB) (uid : Nat) (name : String) :
    sumFor (get_spending_by_category db uid) name =
      sumFor (joinedRows db uid) name :=
  sumFor_groupRows _ _

theorem mem_keys_spending (db : DB) (uid : Nat) (name : String) :
    name ∈ keysOf (get_spending_by_category db uid) ↔
      name ∈ keysOf (joinedRows db uid) :=
  mem_keysOf_groupRows _ _

theorem refTotal_eq_sumFor (db : DB) (uid : Nat) (name : String) :
    refTotal db uid name = sumFor (refJoin db uid) name := rfl

/-- One category's block of the reference join equals the corresponding
filterMap block of the implementation join. -/
theorem refBlock_eq (c : Category) (uid : Nat) (ts : List Transaction) :
    ((ts.map (fun t => (c, t))).filter
        (fun p => p.1.id == p.2.category_id && p.2.owner_id == uid &&
          p.2.type == "expense")).map (fun p => (p.1.name, p.2.amount)) =
      ts.filterMap (fun t =>
        if c.id == t.category_id && t.owner_id == uid && t.type == "expense"
        then some (c.name, t.amount) else none) := by
  induction ts with
  | nil => rfl
  | cons t ts ih =>
    by_cases hp : (c.id == t.category_id && t.owner_id == uid &&
        t.type == "expense") = true
    · simp only [List.map_cons, List.filter_cons, List.filterMap_cons]
      simp [hp, ih]
    · simp only [List.map_cons, List.filter_cons, List.filterMap_cons]
      simp [hp, ih]

theorem refJoin_eq_joinedRows (db : DB) (uid : Nat) :
    refJoin db uid = joinedRows db uid := by
  rw [refJoin, joinedRows]
  generalize db.categories = cs
  induction cs with
  | nil => rfl
  | cons c cs ih =>
    rw [List.flatMap_cons, List.flatMap_cons, List.filter_append,
        List.map_append, ih, refBlock_eq]

/-- Membership characterization of the implementation join. -/
theorem mem_joinedRows (db : DB) (uid : Nat) (row : String × Rat) :
    row ∈ joinedRows db uid ↔
      ∃ c ∈ db.categories, ∃ t ∈ db.transactions,
        c.id = t.category_id ∧ t.owner_id = uid ∧ t.type = "expense" ∧
        row = (c.name, t.amount) := by
  rw [joinedRows]
  simp only [List.mem_flatMap, List.mem_filterMap]
  constructor
  · rintro ⟨c, hc, t, ht, hf⟩
    by_cases hp : (c.id == t.category_id && t.owner_id == uid &&
        t.type == "expense") = true
    · rw [if_pos hp] at hf
      simp only [Bool.and_eq_true, beq_iff_eq] at hp
      exact ⟨c, hc, t, ht, hp.1.1, hp.1.2, hp.2, (Option.some.inj hf).symm⟩
    · rw [if_neg hp] at hf
      cases hf
  · rintro ⟨c, hc, t, ht, h1, h2, h3, h4⟩
    refine ⟨c, hc, t, ht, ?_⟩
    rw [if_pos (by simp [h1, h2, h3]), h4]

theorem mem_keysOf_iff (l : List (String × Rat)) (name : String) :
    name ∈ keysOf l ↔ ∃ q : Rat, (name, q) ∈ l := by
  rw [keysOf]
  simp only [List.mem_map]
  constructor
  · rintro ⟨⟨a, b⟩, hm, rfl⟩
    exact ⟨b, hm⟩
  · rintro ⟨q, hm⟩
    exact ⟨(name, q), hm, rfl⟩

/-- Effect of create_transaction on the join: each category block gains a
tail element exactly when the new row satisfies that block's condition. -/
theorem joinedRows_create_eq (db : DB) (tc : TransactionCreate)
    (uid v : Nat) :
    joinedRows (create_transaction db tc uid).2 v =
      db.categories.flatMap (fun c =>
        (db.transactions.filterMap (fun t =>
          if c.id == t.category_id && t.owner_id == v && t.type == "expense"
          then some (c.name, t.amount) else none)) ++
        (if c.id == tc.category_id && uid == v && tc.type == "expense"
         then [(c.name, tc.amount)] else [])) := by
  rw [joinedRows]
  simp only [create_transaction]
  generalize db.categories = cs
  induction cs with
  | nil => rfl
  | cons c cs ih =>
    rw [List.flatMap_cons, List.flatMap_cons, ih, List.filterMap_append]
    congr 2
    by_cases hp : (c.id == tc.category_id && uid == v &&
        tc.type == "expense") = true
    · simp only [Bool.and_eq_true, beq_iff_eq] at hp
      simp [List.filterMap_cons, hp]
    · simp only [Bool.and_eq_true, beq_iff_eq] at hp
      simp [List.filterMap_cons, hp]

/-- Creating a transaction whose kind is not "expense" leaves the join of
every owner's report untouched. -/
theorem joinedRows_create_non_expense (db : DB) (tc : TransactionCreate)
    (uid v : Nat) (h : ¬ tc.type = "expense") :
    joinedRows (create_transaction db tc uid).2 v = joinedRows db v := by
  rw [joinedRows_create_eq, joinedRows]
  have hb : (tc.type == "expense") = false := by simp [h]
  simp [hb]

theorem sumFor_flatMap_append (cs : List Category)
    (A B : Category → List (String × Rat)) (name : String) :
    sumFor (cs.flatMap (fun c => A c ++ B c)) name =
      sumFor (cs.flatMap A) name + sumFor (cs.flatMap B) name := by
  induction cs with
  | nil => simp [sumFor_nil]
  | cons c cs ih =>
    simp only [List.flatMap_cons, sumFor_append, ih]
    ring

theorem flatMap_if_singleton (cs : List Category) (p : Category → Bool)
    (f : Category → String × Rat) :
    cs.flatMap (fun c => if p c then [f c] else []) =
      cs.filterMap (fun c => if p c then some (f c) else none) := by
  induction cs with
  | nil => rfl
  | cons c cs ih =>
    by_cases hp : p c = true
    · simp [List.flatMap_cons, List.filterMap_cons, hp, ih]
    · simp [List.flatMap_cons, List.filterMap_cons, hp, ih]

/-- With distinct category ids, exactly one category survives a filterMap
keyed on the id of a member category. -/
theorem filterMap_if_id (cs : List Category) (c : Category)
    (f : Category → String × Rat)
    (hnd : (cs.map Category.id).Nodup) (hc : c ∈ cs) :
    cs.filterMap (fun x => if x.id == c.id then some (f x) else none) =
      [f c] := by
  induction cs with
  | nil => cases hc
  | cons a as ih =>
    have hnd' : ((a :: as).map Category.id).Nodup := hnd
    rw [List.map_cons, List.nodup_cons] at hnd
    by_cases hp : (a.id == c.id) = true
    · have hac : a = c :=
        List.inj_on_of_nodup_map hnd' (List.mem_cons_self _ _) hc
          (beq_iff_eq.mp hp)
      have hrest : as.filterMap
          (fun x => if x.id == c.id then some (f x) else none) = [] := by
        rw [List.filterMap_eq_nil_iff]
        intro x hx
        have hne : ¬ x.id = c.id := by
          intro he
          apply hnd.1
          rw [hac, ← he]
          exact List.mem_map_of_mem Category.id hx
        simp [hne]
      rw [List.filterMap_cons, if_pos hp, hrest]
      rw [hac]
    · have hne : ¬ a.id = c.id := by
        intro he
        apply hp
        exact beq_iff_eq.mpr he
      have hc' : c ∈ as := by
        rcases List.mem_cons.mp hc with h | h
        · rw [h] at hne
          exact absurd rfl hne
        · exact h
      rw [List.filterMap_cons, if_neg hp]
      exact ih hnd.2 hc'

/-- Net effect of creating a transaction on its creator's report: when the
referenced category exists (ids distinct), each name's total moves by the
new amount exactly on the category's name. -/
theorem reportTotal_create (db : DB) (tc : TransactionCreate) (uid : Nat)
    (c : Category) (hnd : (db.categories.map Category.id).Nodup)
    (hc : c ∈ db.categories) (hid : c.id = tc.category_id)
    (hk : tc.type = "expense") (name : String) :
    reportTotal (create_transaction db tc uid).2 uid name =
      reportTotal db uid name + (if c.name = name then tc.amount else 0) := by
  rw [reportTotal, reportTotal, sumFor_spending, sumFor_spending,
      joinedRows_create_eq, sumFor_flatMap_append]
  have h2 : sumFor (db.categories.flatMap (fun c' =>
      db.transactions.filterMap (fun t =>
        if c'.id == t.category_id && t.owner_id == uid &&
            t.type == "expense"
        then some (c'.name, t.amount) else none))) name =
      sumFor (joinedRows db uid) name := rfl
  rw [h2]
  congr 1
  simp only [hk, beq_self_eq_true, Bool.and_true]
  rw [flatMap_if_singleton, ← hid,
      filterMap_if_id db.categories c _ hnd hc, sumFor_cons, sumFor_nil]
  ring

/-- C1: for users A and B with A ≠ B and a transaction owned by A,
get_transaction, update_transaction and delete_transaction invoked with
B's identity all yield the not-found outcome none — the same outcome as
for a nonexistent id — and leave the database, hence the transaction,
unchanged. -/
theorem cross_user_access_yields_not_found (db : DB) (t : Transaction)
    (b : Nat) (tc : TransactionCreate)
    (hnd : (db.transactions.map Transaction.id).Nodup)
    (ht : t ∈ db.transactions) (hb : t.owner_id ≠ b) :
    get_transaction db t.id b = none ∧
    update_transaction db t.id tc b = (none, db) ∧
    delete_transaction db t.id b = (none, db) := by
  have h := no_match_of_other_owner db t b hnd ht hb
  have hg : get_transaction db t.id b = none :=
    get_transaction_eq_none db t.id b h
  refine ⟨hg, ?_, ?_⟩
  · rw [update_transaction, hg]
  · rw [delete_transaction, hg]

/-- Witness for C1: user 2 can neither read nor update nor delete user 1's
transaction 1 of dbW. -/
theorem cross_user_access_yields_not_found_witness :
    get_transaction dbW tW.id 2 = none ∧
    update_transaction dbW tW.id tcW 2 = (none, dbW) ∧
    delete_transaction dbW tW.id 2 = (none, dbW) :=
  cross_user_access_yields_not_found dbW tW 2 tcW (by decide) (by decide)
    (by decide)

/-- C6: create_transaction and create_category stamp the stored row's owner
from the authenticated identity.  The payload schemas carry no owner field
at all, so no caller-supplied owner value can reach the stored row. -/
theorem create_stamps_owner (db : DB) (tc : TransactionCreate)
    (cc : CategoryCreate) (uid : Nat) :
    (create_transaction db tc uid).1.owner_id = uid ∧
    (create_transaction db tc uid).2.transactions =
      db.transactions ++ [(create_transaction db tc uid).1] ∧
    (create_category db cc uid).1.owner_id = uid ∧
    (create_category db cc uid).2.categories =
      db.categories ++ [(create_category db cc uid).1] :=
  ⟨rfl, rfl, rfl, rfl⟩

/-- C7: registering an email that is already present yields EmailTaken and
returns the database unchanged — no user row is created. -/
theorem duplicate_email_registration_rejected (hash : String → String)
    (db : DB) (u : UserCreate) (h : ∃ x ∈ db.users, x.email = u.email) :
    create_user_endpoint hash db u =
      (Except.error ApiError.emailTaken, db) := by
  obtain ⟨x, hx, he⟩ := h
  have hne : db.users.filter (fun y => y.email == u.email) ≠ [] := by
    intro hnil
    have := List.filter_eq_nil_iff.mp hnil x hx
    simp [he] at this
  obtain ⟨y, ys, hys⟩ := List.exists_cons_of_ne_nil hne
  have hg : get_user_by_email db u.email = some y := by
    rw [get_user_by_email, hys]
    rfl
  rw [create_user_endpoint, hg]

/-- Witness for C7: re-registering dbW's first email is rejected. -/
theorem duplicate_email_registration_rejected_witness :
    create_user_endpoint (fun s => s) dbW ⟨"a@example.com", "pw"⟩ =
      (Except.error ApiError.emailTaken, dbW) :=
  duplicate_email_registration_rejected (fun s => s) dbW
    ⟨"a@example.com", "pw"⟩ ⟨⟨1, "a@example.com", "h1"⟩, by decide, rfl⟩

/-- C8: updating an owned transaction returns the row with exactly the
four mutable fields replaced by the payload, id and owner preserved; the
stored list changes only at that row's position, and the users and
categories tables are untouched. -/
theorem update_replaces_exactly_mutable_fields (db : DB) (t : Transaction)
    (tc : TransactionCreate) (uid : Nat)
    (hnd : (db.transactions.map Transaction.id).Nodup)
    (ht : t ∈ db.transactions) (hown : t.owner_id = uid) :
    (update_transaction db t.id tc uid).1 = some (setFields tc t) ∧
    (setFields tc t).id = t.id ∧
    (setFields tc t).owner_id = t.owner_id ∧
    (setFields tc t).title = tc.title ∧
    (setFields tc t).amount = tc.amount ∧
    (setFields tc t).type = tc.type ∧
    (setFields tc t).category_id = tc.category_id ∧
    (∃ l1 l2, db.transactions = l1 ++ t :: l2 ∧
      (update_transaction db t.id tc uid).2.transactions =
        l1 ++ setFields tc t :: l2) ∧
    (update_transaction db t.id tc uid).2.users = db.users ∧
    (update_transaction db t.id tc uid).2.categories = db.categories := by
  have hg : get_transaction db t.id uid = some t :=
    get_transaction_eq_some db t uid hnd ht hown
  obtain ⟨l1, l2, he, hu, hr⟩ :=
    split_first_match db.transactions t uid tc hnd ht hown
  have hupd : update_transaction db t.id tc uid =
      (some (setFields tc t),
       { db with transactions := updateFirst t.id uid tc db.transactions }) := by
    rw [update_transaction, hg]
  rw [hupd]
  exact ⟨rfl, rfl, rfl, rfl, rfl, rfl, rfl, ⟨l1, l2, he, hu⟩, rfl, rfl⟩

/-- Witness for C8 at dbW: updating transaction 1 as user 1. -/
theorem update_replaces_exactly_mutable_fields_witness :
    (update_transaction dbW tW.id tcW 1).1 = some (setFields tcW tW) ∧
    (setFields tcW tW).id = tW.id ∧
    (setFields tcW tW).owner_id = tW.owner_id ∧
    (setFields tcW tW).title = tcW.title ∧
    (setFields tcW tW).amount = tcW.amount ∧
    (setFields tcW tW).type = tcW.type ∧
    (setFields tcW tW).category_id = tcW.category_id ∧
    (∃ l1 l2, dbW.transactions = l1 ++ tW :: l2 ∧
      (update_transaction dbW tW.id tcW 1).2.transactions =
        l1 ++ setFields tcW tW :: l2) ∧
    (update_transaction dbW tW.id tcW 1).2.users = dbW.users ∧
    (update_transaction dbW tW.id tcW 1).2.categories = dbW.categories :=
  update_replaces_exactly_mutable_fields dbW tW tcW 1 (by decide) (by decide)
    (by decide)

/-- C9: deleting an owned transaction returns its snapshot and a subsequent
owner-scoped get yields none; deleting an id with no row matching
(id, owner) — in particular one not owned by the caller — signals none and
changes nothing. -/
theorem delete_returns_snapshot_then_gone :
    (∀ (db : DB) (t : Transaction) (uid : Nat),
      (db.transactions.map Transaction.id).Nodup → t ∈ db.transactions →
      t.owner_id = uid →
      (delete_transaction db t.id uid).1 = some t ∧
      get_transaction (delete_transaction db t.id uid).2 t.id uid = none) ∧
    (∀ (db : DB) (tid uid : Nat),
      (∀ x ∈ db.transactions, ¬(x.id = tid ∧ x.owner_id = uid)) →
      delete_transaction db tid uid = (none, db)) := by
  constructor
  · intro db t uid hnd ht hown
    have hg : get_transaction db t.id uid = some t :=
      get_transaction_eq_some db t uid hnd ht hown
    obtain ⟨l1, l2, he, hu, hr⟩ :=
      split_first_match db.transactions t uid ⟨"", 0, "", 0⟩ hnd ht hown
    have hdel : delete_transaction db t.id uid =
        (some t,
         { db with transactions := removeFirst t.id uid db.transactions }) := by
      rw [delete_transaction, hg]
    have hx : ∀ x ∈ l1 ++ l2, ¬(x.id = t.id ∧ x.owner_id = uid) := by
      intro x hmem hcon
      have hmap : t.id ∈ (l1 ++ l2).map Transaction.id := by
        rw [← hcon.1]
        exact List.mem_map_of_mem _ hmem
      rw [he, List.map_append, List.map_cons] at hnd
      have h1 := List.nodup_middle.mp hnd
      have h2 := (List.nodup_cons.mp h1).1
      apply h2
      rw [← List.map_append]
      exact hmap
    rw [hdel]
    refine ⟨rfl, ?_⟩
    apply get_transaction_eq_none
    intro x hmem
    apply hx
    rw [← hr]
    exact hmem
  · intro db tid uid h
    have hg : get_transaction db tid uid = none :=
      get_transaction_eq_none db tid uid h
    rw [delete_transaction, hg]

/-- Witness for C9: deleting transaction 1 as its owner returns its
snapshot and hides it from a later get; deleting nonexistent id 99 yields
none and changes nothing. -/
theorem delete_returns_snapshot_then_gone_witness :
    ((delete_transaction dbW tW.id 1).1 = some tW ∧
     get_transaction (delete_transaction dbW tW.id 1).2 tW.id 1 = none) ∧
    delete_transaction dbW 99 1 = (none, dbW) :=
  ⟨delete_returns_snapshot_then_gone.1 dbW tW 1 (by decide) (by decide)
     (by decide),
   delete_returns_snapshot_then_gone.2 dbW 99 1 (by decide)⟩

/-- C2: the spending report coincides with the reference aggregation of
the specification: group names are pairwise distinct, a name appears in
the report exactly when the reference inner join has a row for it, and
every reported total equals the reference per-group sum of amounts. -/
theorem spending_report_matches_reference (db : DB) (uid : Nat) :
    (keysOf (get_spending_by_category db uid)).Nodup ∧
    (∀ name, name ∈ keysOf (get_spending_by_category db uid) ↔
      name ∈ keysOf (refJoin db uid)) ∧
    (∀ name total, (name, total) ∈ get_spending_by_category db uid →
      total = refTotal db uid name) := by
  refine ⟨keysOf_nodup_groupRows _, ?_, ?_⟩
  · intro name
    rw [mem_keys_spending, refJoin_eq_joinedRows]
  · intro name total hm
    have h1 : sumFor (get_spending_by_category db uid) name = total :=
      sumFor_eq_of_mem _ _ _ (keysOf_nodup_groupRows _) hm
    rw [← h1, sumFor_spending, refTotal_eq_sumFor, refJoin_eq_joinedRows]

/-- Witness for C2: the Food total reported for user 1 in dbW equals the
reference sum. -/
theorem spending_report_matches_reference_witness :
    ("Food", (5 : Rat)) ∈ get_spending_by_category dbW 1 ∧
    (5 : Rat) = refTotal dbW 1 "Food" :=
  ⟨by decide,
   (spending_report_matches_reference dbW 1).2.2 "Food" 5 (by decide)⟩

/-- C4: creating an income transaction leaves the whole spending report of
every owner unchanged; creating an expense transaction whose referenced
category exists adds exactly its amount to that category's name and
nothing to any other name (so each expense is counted exactly once). -/
theorem create_effect_on_spending :
    (∀ (db : DB) (tc : TransactionCreate) (uid v : Nat),
      tc.type = "income" →
      get_spending_by_category (create_transaction db tc uid).2 v =
        get_spending_by_category db v) ∧
    (∀ (db : DB) (tc : TransactionCreate) (uid : Nat) (c : Category),
      (db.categories.map Category.id).Nodup → c ∈ db.categories →
      c.id = tc.category_id → tc.type = "expense" →
      ∀ name, reportTotal (create_transaction db tc uid).2 uid name =
        reportTotal db uid name +
          (if c.name = name then tc.amount else 0)) := by
  constructor
  · intro db tc uid v hk
    rw [get_spending_by_category, get_spending_by_category,
        joinedRows_create_non_expense db tc uid v (by rw [hk]; decide)]
  · intro db tc uid c hnd hc hid hk name
    exact reportTotal_create db tc uid c hnd hc hid hk name

/-- Witness for C4: an income create leaves user 1's report on dbW intact,
and an expense create of amount 3 on Food raises the Food total by 3. -/
theorem create_effect_on_spending_witness :
    get_spending_by_category
        (create_transaction dbW ⟨"gift", 9, "income", 1⟩ 1).2 1 =
      get_spending_by_category dbW 1 ∧
    reportTotal (create_transaction dbW tcW 1).2 1 "Food" =
      reportTotal dbW 1 "Food" +
        (if (⟨1, "Food", 1⟩ : Category).name = "Food" then tcW.amount
         else 0) :=
  ⟨create_effect_on_spending.1 dbW ⟨"gift", 9, "income", 1⟩ 1 1 rfl,
   create_effect_on_spending.2 dbW tcW 1 ⟨1, "Food", 1⟩ (by decide)
     (by decide) rfl rfl "Food"⟩

/-- C3 counterexample: the kind string is never validated, so creating a
transaction with kind "banana" stores a row whose kind is neither income
nor expense. -/
theorem kind_not_constrained_counterexample :
    (create_transaction dbW ⟨"gift", 5, "banana", 1⟩ 1).1 ∈
      (create_transaction dbW ⟨"gift", 5, "banana", 1⟩ 1).2.transactions ∧
    (create_transaction dbW ⟨"gift", 5, "banana", 1⟩ 1).1.type ≠ "income" ∧
    (create_transaction dbW ⟨"gift", 5, "banana", 1⟩ 1).1.type ≠
      "expense" := by
  decide

/-- C3 amended: create and update store the caller-supplied kind string
verbatim, with no membership check against the set of income and expense;
the schema merely defaults the field to "expense" when it is absent. -/
theorem kind_stored_verbatim :
    (∀ (db : DB) (tc : TransactionCreate) (uid : Nat),
      (create_transaction db tc uid).1.type = tc.type) ∧
    (∀ (db : DB) (tid : Nat) (tc : TransactionCreate) (uid : Nat)
        (t : Transaction),
      (update_transaction db tid tc uid).1 = some t → t.type = tc.type) := by
  constructor
  · intro db tc uid
    rfl
  · intro db tid tc uid t h
    rw [update_transaction] at h
    cases hg : get_transaction db tid uid with
    | none =>
        rw [hg] at h
        cases h
    | some t0 =>
        rw [hg] at h
        have ht := Option.some.inj h
        rw [← ht]
        rfl

/-- Witness for C3 amended: both branches evaluated on dbW. -/
theorem kind_stored_verbatim_witness :
    (create_transaction dbW tcW 1).1.type = tcW.type ∧
    (setFields tcW tW).type = tcW.type :=
  ⟨kind_stored_verbatim.1 dbW tcW 1,
   kind_stored_verbatim.2 dbW tW.id tcW 1 (setFields tcW tW) (by decide)⟩

/-- C5 counterexample: in dbC5 no expense of user 1 references category 1,
yet that category's name "Food" appears in user 1's report, because the
aggregation groups by name and user 1's expense references the other
category that bears the same name. -/
theorem unused_category_name_can_appear :
    (⟨1, "Food", 1⟩ : Category) ∈ dbC5.categories ∧
    (∀ t ∈ dbC5.transactions,
      ¬(t.owner_id = 1 ∧ t.type = "expense" ∧
        t.category_id = (⟨1, "Food", 1⟩ : Category).id)) ∧
    (⟨1, "Food", 1⟩ : Category).name ∈
      keysOf (get_spending_by_category dbC5 1) := by
  decide

/-- C5 amended: if no expense transaction of the owner references any
category bearing a given name, that name is absent from the owner's
spending report. -/
theorem name_absent_when_no_expense_references_it (db : DB) (uid : Nat)
    (name : String)
    (h : ∀ c ∈ db.categories, c.name = name →
      ∀ t ∈ db.transactions,
        ¬(t.owner_id = uid ∧ t.type = "expense" ∧
          t.category_id = c.id)) :
    name ∉ keysOf (get_spending_by_category db uid) := by
  intro hmem
  rw [mem_keys_spending] at hmem
  obtain ⟨q, hq⟩ := (mem_keysOf_iff _ _).mp hmem
  obtain ⟨c, hc, t, ht, h1, h2, h3, h4⟩ := (mem_joinedRows db uid _).mp hq
  have hn : name = c.name := (Prod.ext_iff.mp h4).1
  exact h c hc hn.symm t ht ⟨h2, h3, h1.symm⟩

/-- Witness for C5 amended: user 1 has no expense on any category named
Rent in dbW, and Rent is absent from the report. -/
theorem name_absent_when_no_expense_references_it_witness :
    "Rent" ∉ keysOf (get_spending_by_category dbW 1) :=
  name_absent_when_no_expense_references_it dbW 1 "Rent" (by decide)

/-- C10: create_transaction checks neither existence nor ownership of the
supplied category_id — it always succeeds and stores the id verbatim —
and the report of the transaction's owner then lists the expense under the
referenced category's name even when that category belongs to another
user, because get_spending_by_category filters only the transaction
owner. -/
theorem no_category_ownership_check (db : DB) (tc : TransactionCreate)
    (uid : Nat) :
    ((create_transaction db tc uid).1.category_id = tc.category_id ∧
     (create_transaction db tc uid).2.transactions =
       db.transactions ++ [(create_transaction db tc uid).1]) ∧
    (∀ c ∈ db.categories, c.owner_id ≠ uid → tc.type = "expense" →
      tc.category_id = c.id →
      c.name ∈ keysOf
        (get_spending_by_category (create_transaction db tc uid).2 uid)) := by
  refine ⟨⟨rfl, rfl⟩, ?_⟩
  intro c hc hother hk hid
  rw [mem_keys_spending, mem_keysOf_iff]
  refine ⟨tc.amount, ?_⟩
  rw [mem_joinedRows]
  exact ⟨c, hc, (create_transaction db tc uid).1,
    List.mem_append.mpr (Or.inr (List.mem_singleton.mpr rfl)),
    hid.symm, rfl, hk, rfl⟩

/-- Witness for C10: user 1 creates an expense on user 2's category Rent
and "Rent" shows up in user 1's report. -/
theorem no_category_ownership_check_witness :
    ((create_transaction dbW ⟨"sneaky", 4, "expense", 2⟩ 1).1.category_id =
        (⟨"sneaky", 4, "expense", 2⟩ : TransactionCreate).category_id ∧
     (create_transaction dbW ⟨"sneaky", 4, "expense", 2⟩ 1).2.transactions =
       dbW.transactions ++
         [(create_transaction dbW ⟨"sneaky", 4, "expense", 2⟩ 1).1]) ∧
    (⟨2, "Rent", 2⟩ : Category).name ∈ keysOf
      (get_spending_by_category
        (create_transaction dbW ⟨"sneaky", 4, "expense", 2⟩ 1).2 1) :=
  ⟨(no_category_ownership_check dbW ⟨"sneaky", 4, "expense", 2⟩ 1).1,
   (no_category_ownership_check dbW ⟨"sneaky", 4, "expense", 2⟩ 1).2
     ⟨2, "Rent", 2⟩ (by decide) (by decide) rfl rfl⟩

end FinanceApi
